import Mathlib

/-!
Verification of the `lspserver` core (document store, diagnostics extraction,
chunker, severity mapping, hover rendering) against its natural-language
specification.  Go code is shallowly embedded: Go maps become total functions
with the Go zero value as default, fallible operations return `Except`,
Go slices of diagnostics are `Option (List LspDiagnostic)` where `none`
models the Go `nil` slice (a missing map key also reads as `nil`).
-/

set_option maxRecDepth 4096

/-- A single diagnostic record, mirroring the Go struct `LspDiagnostic`
(fields `Uri`, `LineNumber`, `Source`, `Rule`, `Severity`, `Description`,
`Recommendation`; Go zero values as defaults). -/
structure LspDiagnostic where
  Uri : String := ""
  LineNumber : Int := 0
  Source : String := ""
  Rule : String := ""
  Severity : String := ""
  Description : String := ""
  Recommendation : String := ""
deriving DecidableEq, Repr

/-- Pointwise map update for string-keyed Go maps (assignment `m[k] = v`). -/
def upd {β : Type} (f : String → β) (k : String) (v : β) : String → β :=
  fun a => if a = k then v else f a

/-- `crypto/sha256.Sum256` is modelled as an ideal digest: an injective
function whose digests never coincide with the absent (zero) digest.  We take
the message itself as its own digest; the zero digest is `none` in the
hash map. -/
def sha256Sum (s : String) : String := s

/-- The state of the Go `lspDocuments` struct: four string-keyed maps.
Lookups of missing keys give the Go zero value: `""` for `data` and
`analysis`, the zero digest (`none`) for `data_hash`, and the `nil` slice
(`none`) for `diagnostics`. -/
structure LspDocumentsState where
  data : String → String
  data_hash : String → Option String
  analysis : String → String
  diagnostics : String → Option (List LspDiagnostic)

/-- `NewLspDocuments`: all four maps empty. -/
def NewLspDocuments : LspDocumentsState :=
  { data := fun _ => ""
    data_hash := fun _ => none
    analysis := fun _ => ""
    diagnostics := fun _ => none }

/-- `(d *lspDocuments) Load`: reports not-found when the stored text is the
empty string (a missing key reads as `""`, so both are treated as absent). -/
def LspDocumentsState.Load (d : LspDocumentsState) (uri : String) :
    Except String String :=
  if d.data uri = "" then
    Except.error ("document (" ++ uri ++ ") not found")
  else
    Except.ok (d.data uri)

/-- `(d *lspDocuments) Store`: rejects the call when the content hash of the
new text equals the stored hash, otherwise overwrites text and hash. -/
def LspDocumentsState.Store (d : LspDocumentsState) (uri text : String) :
    Except String LspDocumentsState :=
  let hash := sha256Sum text
  if d.data_hash uri = some hash then
    Except.error "document already stored"
  else
    Except.ok { d with
      data := upd d.data uri text
      data_hash := upd d.data_hash uri (some hash) }

/-- `(d *lspDocuments) Delete`: removes the entries of `data` and
`data_hash` only (the Go method always returns a nil error, so it is
modelled as returning the new state). -/
def LspDocumentsState.Delete (d : LspDocumentsState) (uri : String) :
    LspDocumentsState :=
  { d with
    data := upd d.data uri ""
    data_hash := upd d.data_hash uri none }

/-- `(d *lspDocuments) StoreAnalysis`: unconditional overwrite, always
succeeds. -/
def LspDocumentsState.StoreAnalysis (d : LspDocumentsState)
    (uri a : String) : LspDocumentsState :=
  { d with analysis := upd d.analysis uri a }

/-- `(d *lspDocuments) LoadAnalysis`: reports not-found when the stored
analysis text is the empty string. -/
def LspDocumentsState.LoadAnalysis (d : LspDocumentsState) (uri : String) :
    Except String String :=
  if d.analysis uri = "" then
    Except.error ("diagnostics (" ++ uri ++ ") not found")
  else
    Except.ok (d.analysis uri)

/-- `(d *lspDocuments) GetDiagnostics`: reports not-found when the stored
slice is `nil` (`none`), otherwise returns the full stored list. -/
def LspDocumentsState.GetDiagnostics (d : LspDocumentsState) (uri : String) :
    Except String (List LspDiagnostic) :=
  match d.diagnostics uri with
  | none => Except.error ("diagnostics (" ++ uri ++ ") not found")
  | some l => Except.ok l

/-- `(d *lspDocuments) UpdateDiagnostics`: unconditional wholesale
replacement of the stored slice (which may be the `nil` slice `none`). -/
def LspDocumentsState.UpdateDiagnostics (d : LspDocumentsState)
    (uri : String) (diags : Option (List LspDiagnostic)) : LspDocumentsState :=
  { d with diagnostics := upd d.diagnostics uri diags }

/-- C2 counterexample state: store a document, an analysis text and one
diagnostic for uri `"u"`, then `Delete "u"`. -/
def deleteCexState : LspDocumentsState :=
  ((((NewLspDocuments.Store "u" "t").toOption.getD NewLspDocuments
    ).StoreAnalysis "u" "a"
    ).UpdateDiagnostics "u" (some [{ Severity := "advisory" }])
    ).Delete "u"

/-- C2 counterexample: after `Delete "u"`, `LoadAnalysis "u"` and
`GetDiagnostics "u"` still succeed with the previously stored values, so
`Delete` does not remove all state associated with the uri. -/
theorem delete_leaves_analysis_and_diagnostics :
    deleteCexState.LoadAnalysis "u" = Except.ok "a"
    ∧ deleteCexState.GetDiagnostics "u" =
        Except.ok [{ Severity := "advisory" }] := by
  constructor <;> rfl

/-- C2 (amended): `Delete uri` removes the document text and content hash —
a subsequent `Load uri` reports not-found and a subsequent `Store uri T`
succeeds for every `T` — but the analysis text and the diagnostics of every
uri are left untouched. -/
theorem delete_removes_content_only (s : LspDocumentsState) (uri : String) :
    (s.Delete uri).Load uri = Except.error ("document (" ++ uri ++ ") not found")
    ∧ (∀ T : String, ∃ s', (s.Delete uri).Store uri T = Except.ok s')
    ∧ (s.Delete uri).analysis = s.analysis
    ∧ (s.Delete uri).diagnostics = s.diagnostics := by
  refine ⟨?_, ?_, rfl, rfl⟩
  · simp [LspDocumentsState.Delete, LspDocumentsState.Load, upd]
  · intro T
    simp only [LspDocumentsState.Delete, LspDocumentsState.Store, upd]
    simp

/-- C3 counterexample: `UpdateDiagnostics` with the Go `nil` slice — an
empty diagnostic list — makes a subsequent `GetDiagnostics` report
not-found instead of returning the empty list, so a uri analyzed with zero
findings is not distinguished from one never analyzed. -/
theorem update_nil_reads_not_found :
    (NewLspDocuments.UpdateDiagnostics "u" none).GetDiagnostics "u" =
      Except.error "diagnostics (u) not found" := by
  rfl

/-- C3 (amended): `GetDiagnostics uri` reports not-found exactly when the
stored slice for `uri` is `nil` — either never updated, or last updated with
a `nil` slice; after `UpdateDiagnostics uri L` with a non-nil slice `L`
(possibly empty) it returns exactly `L`. -/
theorem getDiagnostics_nil_boundary (s : LspDocumentsState) (uri : String) :
    ((s.UpdateDiagnostics uri none).GetDiagnostics uri =
      Except.error ("diagnostics (" ++ uri ++ ") not found"))
    ∧ (∀ L : List LspDiagnostic,
        (s.UpdateDiagnostics uri (some L)).GetDiagnostics uri = Except.ok L)
    ∧ (s.diagnostics uri = none →
        s.GetDiagnostics uri =
          Except.error ("diagnostics (" ++ uri ++ ") not found")) := by
  refine ⟨?_, ?_, ?_⟩
  · simp [LspDocumentsState.UpdateDiagnostics, LspDocumentsState.GetDiagnostics, upd]
  · intro L
    simp [LspDocumentsState.UpdateDiagnostics, LspDocumentsState.GetDiagnostics, upd]
  · intro h
    simp [LspDocumentsState.GetDiagnostics, h]

/-- C3 witness: the amended boundary evaluated in the empty store at uri
`"u"` with the non-nil empty list. -/
theorem getDiagnostics_nil_boundary_holds :
    ((NewLspDocuments.UpdateDiagnostics "u" (some [])).GetDiagnostics "u" =
      Except.ok [])
    ∧ NewLspDocuments.GetDiagnostics "u" =
        Except.error ("diagnostics (" ++ "u" ++ ") not found") :=
  ⟨(getDiagnostics_nil_boundary NewLspDocuments "u").2.1 [],
   (getDiagnostics_nil_boundary NewLspDocuments "u").2.2 rfl⟩

/-- C8: a stored empty string is read back as absent: after a successful
`Store uri ""`, `Load uri` reports not-found, and after
`StoreAnalysis uri ""` (which always succeeds), `LoadAnalysis uri` reports
not-found, because both lookups treat the empty string as missing. -/
theorem empty_string_reads_as_missing (s s' : LspDocumentsState) (uri : String)
    (h : s.Store uri "" = Except.ok s') :
    s'.Load uri = Except.error ("document (" ++ uri ++ ") not found")
    ∧ (s.StoreAnalysis uri "").LoadAnalysis uri =
        Except.error ("diagnostics (" ++ uri ++ ") not found") := by
  constructor
  · unfold LspDocumentsState.Store at h
    by_cases hc : s.data_hash uri = some (sha256Sum "")
    · simp [hc] at h
    · simp [hc] at h
      subst h
      simp [LspDocumentsState.Load, upd]
  · simp [LspDocumentsState.StoreAnalysis, LspDocumentsState.LoadAnalysis, upd]

/-- C8 witness: evaluated in the empty store at uri `"u"`. -/
theorem empty_string_reads_as_missing_holds :
    ((NewLspDocuments.Store "u" "").toOption.getD NewLspDocuments).Load "u" =
      Except.error ("document (" ++ "u" ++ ") not found")
    ∧ (NewLspDocuments.StoreAnalysis "u" "").LoadAnalysis "u" =
        Except.error ("diagnostics (" ++ "u" ++ ") not found") :=
  empty_string_reads_as_missing NewLspDocuments _ "u" rfl

/-- C9: a successful `Store uri T` writes exactly the document text and the
content hash of `uri`; the analysis map and the diagnostics map are untouched
(for every uri), and the text and hash of every other uri are unchanged. -/
theorem store_frame (s s' : LspDocumentsState) (uri T : String)
    (h : s.Store uri T = Except.ok s') :
    s'.data uri = T
    ∧ s'.data_hash uri = some (sha256Sum T)
    ∧ s'.analysis = s.analysis
    ∧ s'.diagnostics = s.diagnostics
    ∧ ∀ u, u ≠ uri → s'.data u = s.data u ∧ s'.data_hash u = s.data_hash u := by
  unfold LspDocumentsState.Store at h
  by_cases hc : s.data_hash uri = some (sha256Sum T)
  · simp [hc] at h
  · simp [hc] at h
    subst h
    refine ⟨by simp [upd], by simp [upd], rfl, rfl, ?_⟩
    intro u hu
    simp [upd, hu]

/-- C9 witness: evaluated in the empty store, storing `"t"` at `"u"` and
checking the other uri `"v"`. -/
theorem store_frame_holds :
    ((NewLspDocuments.Store "u" "t").toOption.getD NewLspDocuments).data "u" = "t"
    ∧ ((NewLspDocuments.Store "u" "t").toOption.getD NewLspDocuments).data "v" =
        NewLspDocuments.data "v" := by
  have h := store_frame NewLspDocuments
    ((NewLspDocuments.Store "u" "t").toOption.getD NewLspDocuments) "u" "t" rfl
  exact ⟨h.1, (h.2.2.2.2 "v" (by decide)).1⟩

/-- The external 3-level-plus-hint severity used by the LSP layer
(`defines.DiagnosticSeverity`). -/
inductive DiagnosticSeverity where
  | Error
  | Warning
  | Information
  | Hint
deriving DecidableEq, Repr

/-- The severity switch of `OnDiagnostic`: `"advisory"` maps to warning,
`"mandatory"` to error, and every other string falls through to hint. -/
def severityFor (sev : String) : DiagnosticSeverity :=
  if sev = "advisory" then DiagnosticSeverity.Warning
  else if sev = "mandatory" then DiagnosticSeverity.Error
  else DiagnosticSeverity.Hint

/-- C7: the severity mapping is a pure total function sending `"advisory"`
to warning, `"mandatory"` to error, and every other string — the empty
string included — to hint. -/
theorem severity_total_mapping :
    severityFor "advisory" = DiagnosticSeverity.Warning
    ∧ severityFor "mandatory" = DiagnosticSeverity.Error
    ∧ severityFor "" = DiagnosticSeverity.Hint
    ∧ (∀ sev, sev ≠ "advisory" → sev ≠ "mandatory" →
        severityFor sev = DiagnosticSeverity.Hint) := by
  refine ⟨rfl, rfl, rfl, ?_⟩
  intro sev h1 h2
  simp [severityFor, h1, h2]

/-- C7 witness: the fall-through case evaluated at a concrete unknown
severity string. -/
theorem severity_total_mapping_holds :
    severityFor "note" = DiagnosticSeverity.Hint :=
  severity_total_mapping.2.2.2 "note" (by decide) (by decide)

/-- The character class `\s` of Go regexp syntax: `[\t\n\f\r ]`. -/
def isRegexSpace (c : Char) : Bool :=
  c = ' ' || c = '\t' || c = '\n' || c = '\x0c' || c = '\r'

/-- One anchored attempt of the pattern `\[\s*\{[^]]+\}\s*\]` at the head of
the input.  For a fixed starting position the greedy pattern matches exactly
when the input starts with `[`, whitespace, `{`, and the characters strictly
before the first following `]` consist of a non-empty `]`-free body, a `}`,
and trailing whitespace; the matched text then extends through that first
`]`.  Returns the matched text and the remaining input. -/
def matchArrayAt (cs : List Char) : Option (List Char × List Char) :=
  match cs with
  | '[' :: r1 =>
    let sp := r1.takeWhile isRegexSpace
    match r1.dropWhile isRegexSpace with
    | '{' :: r2 =>
      let body := r2.takeWhile (fun c => c ≠ ']')
      match r2.dropWhile (fun c => c ≠ ']') with
      | ']' :: r3 =>
        let trimmed := (body.reverse.dropWhile isRegexSpace).reverse
        if trimmed.getLast? = some '}' ∧ 2 ≤ trimmed.length then
          some ('[' :: sp ++ '{' :: body ++ [']'], r3)
        else none
      | _ => none
    | _ => none
  | _ => none

/-- Leftmost, non-overlapping scan, as `Regexp.FindAllString` performs: try
a match at each position from the left; on success continue after the match,
otherwise advance one character.  The fuel is the input length: every step
consumes at least one character, so it never runs out. -/
def findArraysAux : Nat → List Char → List (List Char)
  | 0, _ => []
  | _ + 1, [] => []
  | fuel + 1, c :: cs =>
    match matchArrayAt (c :: cs) with
    | some (m, rest) => m :: findArraysAux fuel rest
    | none => findArraysAux fuel cs

/-- `regexp.MustCompile(...).FindAllString(analysis, -1)` for the pattern
`\[\s*\{[^]]+\}\s*\]` used by `DiagnosticsUnmarshal`. -/
def goFindJsonArrays (s : String) : List String :=
  (findArraysAux s.data.length s.data).map fun m => String.mk m

/-- JSON tokens produced by the scanner modelling `encoding/json`. -/
inductive JTok where
  | lbrack
  | rbrack
  | lbrace
  | rbrace
  | comma
  | colon
  | jstr (s : String)
  | jnum (neg : Bool) (mag : Nat) (intOnly : Bool)
  | jnull
  | jtrue
  | jfalse
deriving DecidableEq

/-- Value of a hexadecimal digit, if any. -/
def hexVal? (c : Char) : Option Nat :=
  if '0' ≤ c ∧ c ≤ '9' then some (c.toNat - 48)
  else if 'a' ≤ c ∧ c ≤ 'f' then some (c.toNat - 87)
  else if 'A' ≤ c ∧ c ≤ 'F' then some (c.toNat - 55)
  else none

/-- Body of a JSON string after the opening quote: standard escapes,
`\uXXXX` (an unpaired surrogate becomes U+FFFD, as in `encoding/json`),
and a hard error on raw control characters.  Fuel is at least the input
length; every step consumes at least one character. -/
def strBody : Nat → List Char → List Char → Option (String × List Char)
  | 0, _, _ => none
  | fuel + 1, acc, cs =>
    match cs with
    | [] => none
    | '"' :: rest => some (String.mk acc.reverse, rest)
    | '\\' :: esc =>
      match esc with
      | '"' :: rest => strBody fuel ('"' :: acc) rest
      | '\\' :: rest => strBody fuel ('\\' :: acc) rest
      | '/' :: rest => strBody fuel ('/' :: acc) rest
      | 'b' :: rest => strBody fuel ('\x08' :: acc) rest
      | 'f' :: rest => strBody fuel ('\x0c' :: acc) rest
      | 'n' :: rest => strBody fuel ('\n' :: acc) rest
      | 'r' :: rest => strBody fuel ('\r' :: acc) rest
      | 't' :: rest => strBody fuel ('\t' :: acc) rest
      | 'u' :: h1 :: h2 :: h3 :: h4 :: rest =>
        match hexVal? h1, hexVal? h2, hexVal? h3, hexVal? h4 with
        | some a, some b, some c, some d =>
          let code := ((a * 16 + b) * 16 + c) * 16 + d
          let ch := if code < 0xD800 ∨ 0xE000 ≤ code then Char.ofNat code
                    else '�'
          strBody fuel (ch :: acc) rest
        | _, _, _, _ => none
      | _ => none
    | c :: rest =>
      if c.toNat < 32 then none else strBody fuel (c :: acc) rest

/-- Decimal digits to a natural number. -/
def digitsToNat (ds : List Char) : Nat :=
  ds.foldl (fun n c => n * 10 + (c.toNat - 48)) 0

/-- A JSON number literal: optional minus, an integer part without leading
zeros, optional fraction and exponent.  The token records the sign, the
magnitude of the integer part and whether the literal is a plain integer
(which is what decoding into a Go `int` requires). -/
def scanNumber (cs : List Char) : Option (JTok × List Char) :=
  let (neg, cs1) :=
    match cs with
    | '-' :: r => (true, r)
    | _ => (false, cs)
  let intDigits := cs1.takeWhile Char.isDigit
  let rest1 := cs1.dropWhile Char.isDigit
  if intDigits.isEmpty then none
  else if 2 ≤ intDigits.length ∧ intDigits.headD '1' = '0' then none
  else
    let (fracOk, hasFrac, rest2) :=
      match rest1 with
      | '.' :: r =>
        let fd := r.takeWhile Char.isDigit
        (!fd.isEmpty, true, r.dropWhile Char.isDigit)
      | _ => (true, false, rest1)
    let (expOk, hasExp, rest3) :=
      match rest2 with
      | 'e' :: r | 'E' :: r =>
        let r2 :=
          match r with
          | '+' :: rr => rr
          | '-' :: rr => rr
          | _ => r
        let ed := r2.takeWhile Char.isDigit
        (!ed.isEmpty, true, r2.dropWhile Char.isDigit)
      | _ => (true, false, rest2)
    if fracOk && expOk then
      some (JTok.jnum neg (digitsToNat intDigits) (!hasFrac && !hasExp), rest3)
    else none

/-- JSON scanner: skips interelement whitespace (space, tab, newline,
carriage return) and emits one token per step.  Fuel is the input length;
every token consumes at least one character. -/
def tokenize : Nat → List Char → Option (List JTok)
  | 0, [] => some []
  | 0, _ :: _ => none
  | _ + 1, [] => some []
  | fuel + 1, c :: cs =>
    if c = ' ' || c = '\t' || c = '\n' || c = '\r' then tokenize fuel cs
    else if c = '[' then (tokenize fuel cs).map (JTok.lbrack :: ·)
    else if c = ']' then (tokenize fuel cs).map (JTok.rbrack :: ·)
    else if c = '{' then (tokenize fuel cs).map (JTok.lbrace :: ·)
    else if c = '}' then (tokenize fuel cs).map (JTok.rbrace :: ·)
    else if c = ',' then (tokenize fuel cs).map (JTok.comma :: ·)
    else if c = ':' then (tokenize fuel cs).map (JTok.colon :: ·)
    else if c = '"' then
      match strBody (cs.length + 1) [] cs with
      | some (s, rest) => (tokenize fuel rest).map (JTok.jstr s :: ·)
      | none => none
    else if c = 'n' then
      match cs with
      | 'u' :: 'l' :: 'l' :: rest => (tokenize fuel rest).map (JTok.jnull :: ·)
      | _ => none
    else if c = 't' then
      match cs with
      | 'r' :: 'u' :: 'e' :: rest => (tokenize fuel rest).map (JTok.jtrue :: ·)
      | _ => none
    else if c = 'f' then
      match cs with
      | 'a' :: 'l' :: 's' :: 'e' :: rest =>
        (tokenize fuel rest).map (JTok.jfalse :: ·)
      | _ => none
    else if c = '-' || c.isDigit then
      match scanNumber (c :: cs) with
      | some (t, rest) => (tokenize fuel rest).map (t :: ·)
      | none => none
    else none

/-- Parsed JSON values. -/
inductive JValue where
  | jnull
  | jbool (b : Bool)
  | jnum (neg : Bool) (mag : Nat) (intOnly : Bool)
  | jstr (s : String)
  | jarr (items : List JValue)
  | jobj (members : List (String × JValue))

/-- Stack frames of the JSON parser: an array collecting its items, or an
object collecting its members while a value for `key` is pending. -/
inductive JFrame where
  | farr (acc : List JValue)
  | fobj (acc : List (String × JValue)) (key : String)

/-- Parser modes: expecting a value; a value just completed; inside an
object expecting a key (or `}` when no member was read yet); after a key
expecting `:`. -/
inductive JMode where
  | mval
  | mafter (v : JValue)
  | mkey (acc : List (String × JValue)) (first : Bool)
  | mcolon (acc : List (String × JValue)) (key : String)

/-- Scalar tokens as values. -/
def scalarValue? : JTok → Option JValue
  | JTok.jstr s => some (JValue.jstr s)
  | JTok.jnum n m i => some (JValue.jnum n m i)
  | JTok.jnull => some JValue.jnull
  | JTok.jtrue => some (JValue.jbool true)
  | JTok.jfalse => some (JValue.jbool false)
  | _ => none

/-- Shift-reduce JSON grammar over the token list: accepts exactly one
top-level value with no trailing tokens (as `json.Unmarshal` requires). -/
def parseToks : List JTok → JMode → List JFrame → Option JValue
  | [], JMode.mafter v, [] => some v
  | [], _, _ => none
  | t :: ts, JMode.mval, stack =>
    match scalarValue? t with
    | some v => parseToks ts (JMode.mafter v) stack
    | none =>
      match t with
      | JTok.lbrack => parseToks ts JMode.mval (JFrame.farr [] :: stack)
      | JTok.lbrace => parseToks ts (JMode.mkey [] true) stack
      | JTok.rbrack =>
        match stack with
        | JFrame.farr [] :: st => parseToks ts (JMode.mafter (JValue.jarr [])) st
        | _ => none
      | _ => none
  | t :: ts, JMode.mafter v, stack =>
    match t, stack with
    | JTok.comma, JFrame.farr acc :: st =>
      parseToks ts JMode.mval (JFrame.farr (acc ++ [v]) :: st)
    | JTok.comma, JFrame.fobj acc key :: st =>
      parseToks ts (JMode.mkey (acc ++ [(key, v)]) false) st
    | JTok.rbrack, JFrame.farr acc :: st =>
      parseToks ts (JMode.mafter (JValue.jarr (acc ++ [v]))) st
    | JTok.rbrace, JFrame.fobj acc key :: st =>
      parseToks ts (JMode.mafter (JValue.jobj (acc ++ [(key, v)]))) st
    | _, _ => none
  | t :: ts, JMode.mkey acc first, stack =>
    match t with
    | JTok.jstr k => parseToks ts (JMode.mcolon acc k) stack
    | JTok.rbrace =>
      if first then parseToks ts (JMode.mafter (JValue.jobj acc)) stack else none
    | _ => none
  | t :: ts, JMode.mcolon acc key, stack =>
    match t with
    | JTok.colon => parseToks ts JMode.mval (JFrame.fobj acc key :: stack)
    | _ => none

/-- ASCII lower-casing, for the case-insensitive field-name matching of
`encoding/json`. -/
def lcChar (c : Char) : Char :=
  if 'A' ≤ c ∧ c ≤ 'Z' then Char.ofNat (c.toNat + 32) else c

/-- Case-insensitive comparison of an object key against a (lower-case)
struct tag. -/
def keyMatches (k tag : String) : Bool :=
  k.data.map lcChar = tag.data

/-- Decoding a JSON number into a Go `int`: the literal must be a plain
integer within the signed 64-bit range (`strconv.ParseInt` bounds). -/
def intFromJNum (neg : Bool) (mag : Nat) (intOnly : Bool) : Option Int :=
  if !intOnly then none
  else if neg then
    if mag ≤ 2 ^ 63 then some (-(mag : Int)) else none
  else
    if mag ≤ 2 ^ 63 - 1 then some ((mag : Int)) else none

/-- Decoding a JSON value into a string field: a string sets the field, a
JSON `null` leaves it unchanged, anything else is a type error. -/
def setStrField (d : LspDiagnostic) (v : JValue)
    (assign : LspDiagnostic → String → LspDiagnostic) : Option LspDiagnostic :=
  match v with
  | JValue.jstr s => some (assign d s)
  | JValue.jnull => some d
  | _ => none

/-- One object member applied to a diagnostic under construction, following
the `json` tags of `LspDiagnostic`; unknown keys are ignored. -/
def decodeDiagField (d : LspDiagnostic) (k : String) (v : JValue) :
    Option LspDiagnostic :=
  if keyMatches k "uri" then setStrField d v (fun d s => { d with Uri := s })
  else if keyMatches k "line_number" then
    match v with
    | JValue.jnull => some d
    | JValue.jnum neg mag intOnly =>
      (intFromJNum neg mag intOnly).map (fun n => { d with LineNumber := n })
    | _ => none
  else if keyMatches k "source" then
    setStrField d v (fun d s => { d with Source := s })
  else if keyMatches k "rule" then
    setStrField d v (fun d s => { d with Rule := s })
  else if keyMatches k "severity" then
    setStrField d v (fun d s => { d with Severity := s })
  else if keyMatches k "description" then
    setStrField d v (fun d s => { d with Description := s })
  else if keyMatches k "recommendation" then
    setStrField d v (fun d s => { d with Recommendation := s })
  else some d

/-- A JSON object decoded into a diagnostic, member by member in order
(later duplicates overwrite, as in `encoding/json`). -/
def decodeDiagObj (ms : List (String × JValue)) : Option LspDiagnostic :=
  ms.foldlM (fun d kv => decodeDiagField d kv.1 kv.2) {}

/-- A JSON value decoded as `[]LspDiagnostic`: an array of objects (a `null`
element leaves a zero-value record, a `null` array leaves the nil slice). -/
def decodeDiagList : JValue → Option (List LspDiagnostic)
  | JValue.jarr xs =>
    xs.mapM (fun x =>
      match x with
      | JValue.jobj ms => decodeDiagObj ms
      | JValue.jnull => some {}
      | _ => none)
  | JValue.jnull => some []
  | _ => none

/-- `json.Unmarshal([]byte(match), &diagnostics)` for a
`[]LspDiagnostic` target: scan, parse exactly one top-level value, decode. -/
def goUnmarshalDiags (s : String) : Option (List LspDiagnostic) :=
  match tokenize s.data.length s.data with
  | none => none
  | some toks =>
    match parseToks toks JMode.mval [] with
    | none => none
    | some v => decodeDiagList v

/-- `DiagnosticsUnmarshal`: find all array-shaped spans; report an error
only when there is no span at all; parse each span independently, skipping
the ones that fail; append the survivors (the Go slice stays `nil` when
nothing was appended) and stamp every record with the uri. -/
def DiagnosticsUnmarshal (uri analysis : String) :
    Except String (Option (List LspDiagnostic)) :=
  let found := goFindJsonArrays analysis
  if found = [] then Except.error "no valid JSON array found"
  else
    let all := found.foldl (fun acc m =>
      match goUnmarshalDiags m with
      | none => acc
      | some ds => acc ++ ds) []
    let stamped := all.map fun d => { d with Uri := uri }
    Except.ok (if stamped.isEmpty then none else some stamped)

/-- C1 counterexample: the text `"[ {bad} ]"` contains one bracketed
array-shaped span, the span fails to parse, and yet `DiagnosticsUnmarshal`
reports success with the nil list — not the failure the claim requires. -/
theorem diagnosticsUnmarshal_matched_unparseable_ok :
    DiagnosticsUnmarshal "u" "[ \x7bbad\x7d ]" = Except.ok none
    ∧ goFindJsonArrays "[ \x7bbad\x7d ]" = ["[ \x7bbad\x7d ]"] :=
  ⟨rfl, rfl⟩

/-- C1 (amended): `DiagnosticsUnmarshal` returns an error exactly when the
regular expression finds no array-shaped span in the text; when at least one
span matches it reports success — even if every matched span fails to parse —
returning the possibly-nil union of the spans that parsed, each record
stamped with the uri. -/
theorem diagnosticsUnmarshal_err_iff (uri analysis : String) :
    ((∃ r, DiagnosticsUnmarshal uri analysis = Except.ok r) ↔
      goFindJsonArrays analysis ≠ [])
    ∧ (∀ l, DiagnosticsUnmarshal uri analysis = Except.ok (some l) →
        ∀ d ∈ l, d.Uri = uri) := by
  constructor
  · unfold DiagnosticsUnmarshal
    by_cases h : goFindJsonArrays analysis = [] <;> simp [h]
  · intro l hl d hd
    unfold DiagnosticsUnmarshal at hl
    by_cases h : goFindJsonArrays analysis = []
    · simp [h] at hl
    · simp [h] at hl
      obtain ⟨-, hmap⟩ := hl
      subst hmap
      obtain ⟨a, -, rfl⟩ := List.mem_map.mp hd
      rfl

/-- C1 witness for the amended claim: a parseable span succeeds and the
parsed record is stamped with the uri. -/
theorem diagnosticsUnmarshal_err_iff_holds :
    (∃ r, DiagnosticsUnmarshal "u" "[\x7b\"severity\":\"mandatory\"\x7d]"
      = Except.ok r)
    ∧ (∀ d ∈ [({ Uri := "u", Severity := "mandatory" } : LspDiagnostic)],
        d.Uri = "u") :=
  ⟨(diagnosticsUnmarshal_err_iff "u" "[\x7b\"severity\":\"mandatory\"\x7d]").1.mpr
      (by decide),
   (diagnosticsUnmarshal_err_iff "u" "[\x7b\"severity\":\"mandatory\"\x7d]").2
      _ rfl⟩

/-- `const maxRetries = 5` of `updateDocumentStore`. -/
def maxRetries : Nat := 5

/-- The retry loop of `updateDocumentStore`, with the backend call and the
retry-prompt file content passed in as parameters (`LoadPrompt` of the retry
prompt is modelled as succeeding with `retryPrompt`).  `remaining` is the
number of attempts still allowed (`maxRetries - attempts + 1` in the Go
loop); the `0` case is never entered, since the loop starts with a positive
budget.  Besides the Go result and state, the model returns the number of
backend analysis calls performed, to make the attempt count observable. -/
def attemptLoop (analyse : String → Except String String)
    (retryPrompt uri text : String) :
    Nat → String → LspDocumentsState →
      Except String (Option (List LspDiagnostic)) × LspDocumentsState × Nat
  | 0, _, s => (Except.error "no valid JSON array found", s, 0)
  | remaining + 1, instruction, s =>
    match analyse (instruction ++ text) with
    | Except.error e => (Except.error e, s, 1)
    | Except.ok analysis =>
      let s1 := s.StoreAnalysis uri analysis
      match DiagnosticsUnmarshal uri analysis with
      | Except.ok diags => (Except.ok diags, s1, 1)
      | Except.error e =>
        if remaining = 0 then (Except.error e, s1, 1)
        else
          let r := attemptLoop analyse retryPrompt uri text remaining retryPrompt s1
          (r.1, r.2.1, r.2.2 + 1)

/-- `(l *lspServer) updateDocumentStore`: store the document (an
`AlreadyStored` error is swallowed and short-circuits the analysis), then
run up to `maxRetries` analysis attempts, the retries with the retry prompt
prepended; on success replace the diagnostics wholesale, on exhaustion
return the extraction error without touching the diagnostics. -/
def updateDocumentStore (analyse : String → Except String String)
    (retryPrompt : String) (s : LspDocumentsState) (uri text : String) :
    Except String Unit × LspDocumentsState × Nat :=
  match s.Store uri text with
  | Except.error _ => (Except.ok (), s, 0)
  | Except.ok s1 =>
    match attemptLoop analyse retryPrompt uri text maxRetries "" s1 with
    | (Except.error e, s2, n) => (Except.error e, s2, n)
    | (Except.ok diags, s2, n) => (Except.ok (), s2.UpdateDiagnostics uri diags, n)

/-- One-step unfolding of the retry loop at a positive budget. -/
theorem attemptLoop_succ (analyse : String → Except String String)
    (retryPrompt uri text : String) (rem : Nat) (inst : String)
    (s : LspDocumentsState) :
    attemptLoop analyse retryPrompt uri text (rem + 1) inst s =
      match analyse (inst ++ text) with
      | Except.error e => (Except.error e, s, 1)
      | Except.ok analysis =>
        let s1 := s.StoreAnalysis uri analysis
        match DiagnosticsUnmarshal uri analysis with
        | Except.ok diags => (Except.ok diags, s1, 1)
        | Except.error e =>
          if rem = 0 then (Except.error e, s1, 1)
          else
            let r := attemptLoop analyse retryPrompt uri text rem retryPrompt s1
            (r.1, r.2.1, r.2.2 + 1) := rfl

/-- `DiagnosticsUnmarshal` fails exactly with the `no valid JSON array
found` error on a text without array-shaped spans. -/
theorem diagnosticsUnmarshal_nomatch (uri t : String)
    (hm : goFindJsonArrays t = []) :
    DiagnosticsUnmarshal uri t = Except.error "no valid JSON array found" := by
  simp [DiagnosticsUnmarshal, hm]

/-- Under a backend whose output never contains an array-shaped span, every
pass of the retry loop fails to extract, so a loop entered with `rem + 1`
attempts of budget performs exactly `rem + 1` backend calls, ends with the
extraction error, and never touches the diagnostics map. -/
theorem attemptLoop_all_unparseable
    (analyse : String → Except String String) (retryPrompt uri text : String)
    (hbad : ∀ inp, ∃ t, analyse inp = Except.ok t ∧ goFindJsonArrays t = []) :
    ∀ rem inst s, ∃ s2,
      attemptLoop analyse retryPrompt uri text (rem + 1) inst s =
        (Except.error "no valid JSON array found", s2, rem + 1)
      ∧ s2.diagnostics = s.diagnostics := by
  intro rem
  induction rem with
  | zero =>
    intro inst s
    obtain ⟨t, ht, hm⟩ := hbad (inst ++ text)
    refine ⟨s.StoreAnalysis uri t, ?_, rfl⟩
    simp [attemptLoop, ht, DiagnosticsUnmarshal, hm]
  | succ r ih =>
    intro inst s
    obtain ⟨t, ht, hm⟩ := hbad (inst ++ text)
    obtain ⟨s2, he, hd⟩ := ih retryPrompt (s.StoreAnalysis uri t)
    refine ⟨s2, ?_, hd⟩
    have hnz : r + 1 ≠ 0 := Nat.succ_ne_zero r
    rw [attemptLoop_succ]
    simp only [ht, diagnosticsUnmarshal_nomatch uri t hm, if_neg hnz, he]

/-- C5 counterexample start state: the uri `"u"` already carries one stored
diagnostic before the new analysis cycle begins. -/
def retryCexStart : LspDocumentsState :=
  NewLspDocuments.UpdateDiagnostics "u" (some [{ Severity := "advisory" }])

/-- C5 counterexample: the stub provider always returns `"[ {bad} ]"`,
which is unparseable in the claim's sense — no diagnostic record is ever
extracted from it (`goUnmarshalDiags` rejects the one matched span).  Yet
the analysis cycle for the newly stored document performs exactly one
attempt, returns success instead of a terminal extraction error, and calls
`UpdateDiagnostics` with the nil list, clearing the previously stored
diagnostics — against every part of the claimed behaviour. -/
theorem retry_unparseable_span_clears_diagnostics :
    goUnmarshalDiags "[ \x7bbad\x7d ]" = none
    ∧ retryCexStart.diagnostics "u" = some [{ Severity := "advisory" }]
    ∧ (updateDocumentStore (fun _ => Except.ok "[ \x7bbad\x7d ]") "r"
        retryCexStart "u" "t").1 = Except.ok ()
    ∧ (updateDocumentStore (fun _ => Except.ok "[ \x7bbad\x7d ]") "r"
        retryCexStart "u" "t").2.2 = 1
    ∧ (updateDocumentStore (fun _ => Except.ok "[ \x7bbad\x7d ]") "r"
        retryCexStart "u" "t").2.1.diagnostics "u" = none :=
  ⟨rfl, rfl, rfl, rfl, rfl⟩

/-- C5 (amended): with a provider that always returns text free of
array-shaped spans — the spans the extraction regex recognises, so
`DiagnosticsUnmarshal` fails on every attempt — the analysis cycle for a
newly stored document performs exactly `maxRetries = 5` analysis attempts,
returns the terminal extraction error, and leaves the diagnostics stored
for every uri unchanged (`UpdateDiagnostics` is never reached).  When the
provider's unparseable text does contain a matched span, the cycle instead
stops successfully after one attempt and replaces the stored diagnostics
with the nil list, as the counterexample above shows. -/
theorem retry_bound (analyse : String → Except String String)
    (retryPrompt : String) (s : LspDocumentsState) (uri text : String)
    (hnew : ¬ s.data_hash uri = some (sha256Sum text))
    (hbad : ∀ inp, ∃ t, analyse inp = Except.ok t ∧ goFindJsonArrays t = []) :
    (updateDocumentStore analyse retryPrompt s uri text).1 =
      Except.error "no valid JSON array found"
    ∧ (updateDocumentStore analyse retryPrompt s uri text).2.2 = 5
    ∧ (updateDocumentStore analyse retryPrompt s uri text).2.1.diagnostics
        = s.diagnostics := by
  obtain ⟨s2, he, hd⟩ := attemptLoop_all_unparseable analyse retryPrompt uri text
    hbad 4 ""
    { s with
      data := upd s.data uri text
      data_hash := upd s.data_hash uri (some (sha256Sum text)) }
  norm_num at he
  simp only [updateDocumentStore, LspDocumentsState.Store, maxRetries, if_neg hnew]
  rw [he]
  simp [hd]

/-- C5 witness: a stub provider returning the unparseable text `"g"` on a
fresh store of `"t"` at `"u"`. -/
theorem retry_bound_holds :
    (updateDocumentStore (fun _ => Except.ok "g") "r" NewLspDocuments "u" "t").1
      = Except.error "no valid JSON array found"
    ∧ (updateDocumentStore (fun _ => Except.ok "g") "r" NewLspDocuments "u" "t").2.2
      = 5
    ∧ (updateDocumentStore (fun _ => Except.ok "g") "r"
        NewLspDocuments "u" "t").2.1.diagnostics
      = NewLspDocuments.diagnostics :=
  retry_bound (fun _ => Except.ok "g") "r" NewLspDocuments "u" "t" (by decide)
    (fun inp => ⟨"g", rfl, by decide⟩)

/-- C6: storing identical content twice is idempotent.  After a successful
`Store uri T`, a second `Store uri T` reports `AlreadyStored` (the content
hash equals the stored hash), and the calling `updateDocumentStore`
short-circuits without a single analysis call, returning the state — text,
hashes, analysis texts and diagnostics of every uri — unchanged. -/
theorem store_idempotent (analyse : String → Except String String)
    (retryPrompt : String) (s s1 : LspDocumentsState) (uri T : String)
    (h : s.Store uri T = Except.ok s1) :
    s1.Store uri T = Except.error "document already stored"
    ∧ updateDocumentStore analyse retryPrompt s1 uri T = (Except.ok (), s1, 0) := by
  have hh : s1.data_hash uri = some (sha256Sum T) := by
    unfold LspDocumentsState.Store at h
    by_cases hc : s.data_hash uri = some (sha256Sum T)
    · simp [hc] at h
    · simp [hc] at h
      subst h
      simp [upd]
  have h2 : s1.Store uri T = Except.error "document already stored" := by
    unfold LspDocumentsState.Store
    simp [hh]
  refine ⟨h2, ?_⟩
  unfold updateDocumentStore
  rw [h2]

/-- C6 witness: storing `"t"` at `"u"` twice starting from the empty
store. -/
theorem store_idempotent_holds :
    ((NewLspDocuments.Store "u" "t").toOption.getD NewLspDocuments).Store "u" "t"
      = Except.error "document already stored"
    ∧ updateDocumentStore (fun _ => Except.ok "") ""
        ((NewLspDocuments.Store "u" "t").toOption.getD NewLspDocuments) "u" "t"
      = (Except.ok (),
         (NewLspDocuments.Store "u" "t").toOption.getD NewLspDocuments, 0) :=
  store_idempotent (fun _ => Except.ok "") "" NewLspDocuments
    ((NewLspDocuments.Store "u" "t").toOption.getD NewLspDocuments) "u" "t" rfl

/-- Lower-case hexadecimal digit. -/
def hexDigitChar (n : Nat) : Char :=
  if n < 10 then Char.ofNat (48 + n) else Char.ofNat (87 + n)

/-- `encoding/json` string escaping (with the default HTML escaping of
`<`, `>`, `&`, and ` `/` `). -/
def goEscapeChar (c : Char) : String :=
  if c = '"' then "\\\""
  else if c = '\\' then "\\\\"
  else if c = '\n' then "\\n"
  else if c = '\r' then "\\r"
  else if c = '\t' then "\\t"
  else if c = '<' then "\\u003c"
  else if c = '>' then "\\u003e"
  else if c = '&' then "\\u0026"
  else if c.toNat < 32 then
    "\\u00" ++ String.mk [hexDigitChar (c.toNat / 16), hexDigitChar (c.toNat % 16)]
  else if c = ' ' then "\\u2028"
  else if c = ' ' then "\\u2029"
  else String.mk [c]

/-- A Go string as a JSON string literal. -/
def goEscapeString (s : String) : String :=
  "\"" ++ String.join (s.data.map goEscapeChar) ++ "\""

/-- `json.MarshalIndent(d, "", "  ")` for an `LspDiagnostic`: the fields in
struct order under their `json` tags, two-space indentation. -/
def jsonMarshalIndentDiag (d : LspDiagnostic) : String :=
  "\x7b\n  \"uri\": " ++ goEscapeString d.Uri
  ++ ",\n  \"line_number\": " ++ toString d.LineNumber
  ++ ",\n  \"source\": " ++ goEscapeString d.Source
  ++ ",\n  \"rule\": " ++ goEscapeString d.Rule
  ++ ",\n  \"severity\": " ++ goEscapeString d.Severity
  ++ ",\n  \"description\": " ++ goEscapeString d.Description
  ++ ",\n  \"recommendation\": " ++ goEscapeString d.Recommendation
  ++ "\n\x7d"

/-- `DiagnosticToJsonMarkup`: the indented JSON inside a fenced markdown
block.  Marshalling an `LspDiagnostic` (strings and an int) cannot fail, so
the Go error path is vacuous and the function is total. -/
def DiagnosticToJsonMarkup (d : LspDiagnostic) : String :=
  "#### diagnostics\n```json\n" ++ jsonMarshalIndentDiag d ++ "\n```"

/-- The value accumulation loop of `OnHover`: `value` starts empty, every
diagnostic whose `LineNumber - 1` differs from the requested zero-based
line is skipped, and each match overwrites `value`. -/
def onHoverValue (diags : List LspDiagnostic) (line : Nat) : String :=
  diags.foldl
    (fun value d =>
      if d.LineNumber - 1 ≠ (line : Int) then value
      else DiagnosticToJsonMarkup d) ""

/-- `(l *lspServer) OnHover`, at the level of the stored diagnostics: an
error from `GetDiagnostics` propagates, otherwise the hover markup is the
accumulated value. -/
def OnHover (s : LspDocumentsState) (uri : String) (line : Nat) :
    Except String String :=
  match s.GetDiagnostics uri with
  | Except.error e => Except.error e
  | Except.ok ds => Except.ok (onHoverValue ds line)

/-- The hover loop with an arbitrary starting value computes the rendering
of the last diagnostic matching the line, defaulting to the start value. -/
theorem onHover_foldl_last (line : Int) :
    ∀ (diags : List LspDiagnostic) (init : String),
      diags.foldl (fun value d =>
        if d.LineNumber - 1 ≠ line then value else DiagnosticToJsonMarkup d)
        init =
      (((diags.filter (fun d => d.LineNumber - 1 == line)).getLast?).map
        DiagnosticToJsonMarkup).getD init := by
  intro diags
  induction diags with
  | nil => intro init; rfl
  | cons d ds ih =>
    intro init
    by_cases h : d.LineNumber - 1 = line
    · rw [List.foldl_cons, if_neg (not_not_intro h),
        List.filter_cons_of_pos (by simp [h])]
      cases hfl : ds.filter (fun d => d.LineNumber - 1 == line) with
      | nil =>
        rw [ih, hfl]
        rfl
      | cons x xs =>
        rw [ih, hfl, List.getLast?_cons_cons]
        cases hg : (x :: xs).getLast? with
        | none => simp at hg
        | some g => simp
    · rw [List.foldl_cons, if_pos h, List.filter_cons_of_neg (by simp [h])]
      exact ih init

/-- C10: with several stored diagnostics on the same line, the hover value
is the markup of the last matching diagnostic in the stored sequence
(earlier matches are overwritten), and with no match on the requested line
the hover markup value is the empty string. -/
theorem hover_renders_last_match (diags : List LspDiagnostic) (line : Nat) :
    onHoverValue diags line =
      (((diags.filter
          (fun d => d.LineNumber - 1 == (line : Int))).getLast?).map
        DiagnosticToJsonMarkup).getD "" :=
  onHover_foldl_last (line : Int) diags ""

/-- `strings.Split(document, "\n")`: accumulate the current line (reversed)
and cut at every newline; the result always has at least one element. -/
def splitLinesAux : List Char → List Char → List String
  | acc, [] => [String.mk acc.reverse]
  | acc, '\n' :: rest => String.mk acc.reverse :: splitLinesAux [] rest
  | acc, c :: rest => splitLinesAux (c :: acc) rest

/-- The lines of a document, as `strings.Split(document, "\n")` yields
them. -/
def goSplitLines (document : List Char) : List String :=
  splitLinesAux [] document

/-- `strings.HasPrefix`. -/
def hasPfx : List Char → List Char → Bool
  | [], _ => true
  | _ :: _, [] => false
  | p :: ps, c :: cs => p = c && hasPfx ps cs

/-- The retry-prompt strip of `preprocessDocument2`: `strings.TrimPrefix`
guarded by `strings.HasPrefix`. -/
def dropPfx (p d : List Char) : List Char :=
  if hasPfx p d then d.drop p.length else d

/-- `chunkSize := 30` of `preprocessDocument2`. -/
def chunkSize : Nat := 30

/-- The inner loop of a chunk: `Line N: <content>\n` for each line, with
1-based numbering continuing from `base`. -/
def renderChunk : Nat → List String → String
  | _, [] => ""
  | base, l :: ls =>
    "Line " ++ toString (base + 1) ++ ": " ++ l ++ "\n" ++ renderChunk (base + 1) ls

/-- The outer loop of `preprocessDocument2`: slice off `chunkSize` lines at
a time.  The fuel starts at the number of lines and every pass consumes at
least one line, so it never runs out. -/
def buildChunksF : Nat → Nat → List String → List String
  | 0, _, _ => []
  | _ + 1, _, [] => []
  | fuel + 1, base, l :: ls =>
    renderChunk base ((l :: ls).take chunkSize)
      :: buildChunksF fuel (base + chunkSize) ((l :: ls).drop chunkSize)

/-- `preprocessDocument2` (the identical `preprocessDocument` of the second
backend differs only in a `runtime.GOOS` switch that also picks `"\n"` on
non-Windows systems): strip the retry prompt if present, split into lines,
chunk by 30 with original 1-based line numbers. -/
def preprocessDocument2 (retryPrompt document : String) : List String :=
  let doc := dropPfx retryPrompt.data document.data
  let lines := goSplitLines doc
  buildChunksF lines.length 0 lines

/-- A rendered chunk is the concatenation, over the positions of its line
list, of `Line (base + k + 1): <line k>\n`. -/
theorem renderChunk_eq (ls : List String) : ∀ base : Nat,
    renderChunk base ls =
      ((List.range ls.length).map (fun k =>
        "Line " ++ toString (base + k + 1) ++ ": " ++ ls.getD k "" ++ "\n")).foldr
        (· ++ ·) "" := by
  induction ls with
  | nil => intro base; rfl
  | cons l ls ih =>
    intro base
    have hfun : ((fun k =>
        "Line " ++ toString (base + k + 1) ++ ": " ++ (l :: ls).getD k "" ++ "\n")
          ∘ Nat.succ)
        = fun k =>
            "Line " ++ toString (base + 1 + k + 1) ++ ": " ++ ls.getD k "" ++ "\n" := by
      funext k
      have harith : base + (k + 1) + 1 = base + 1 + k + 1 := by omega
      simp only [Function.comp_apply, Nat.succ_eq_add_one, List.getD_cons_succ,
        harith]
    rw [List.length_cons, List.range_succ_eq_map, List.map_cons, List.map_map,
      List.foldr_cons, hfun]
    rw [show renderChunk base (l :: ls) =
      "Line " ++ toString (base + 1) ++ ": " ++ l ++ "\n"
        ++ renderChunk (base + 1) ls from rfl, ih (base + 1)]
    simp [List.getD_cons_zero]

/-- The chunk loop, entered with enough fuel, produces one chunk per slice:
chunk `i` renders the `chunkSize` (or fewer, at the end) lines starting at
line index `i * chunkSize`. -/
theorem buildChunksF_eq (fuel : Nat) : ∀ (ls : List String) (base : Nat),
    ls.length ≤ fuel →
    buildChunksF fuel base ls =
      (List.range ((ls.length + (chunkSize - 1)) / chunkSize)).map
        (fun i => renderChunk (base + i * chunkSize)
          ((ls.drop (i * chunkSize)).take chunkSize)) := by
  induction fuel with
  | zero =>
    intro ls base h
    have hnil : ls = [] := List.eq_nil_of_length_eq_zero (Nat.le_zero.mp h)
    subst hnil
    rfl
  | succ f ih =>
    intro ls base h
    cases ls with
    | nil => rfl
    | cons l ls' =>
      rw [show buildChunksF (f + 1) base (l :: ls') =
        renderChunk base ((l :: ls').take chunkSize)
          :: buildChunksF f (base + chunkSize) ((l :: ls').drop chunkSize) from rfl]
      have hlen : ((l :: ls').drop chunkSize).length ≤ f := by
        simp only [List.length_drop, List.length_cons, chunkSize]
        simp only [List.length_cons] at h
        omega
      rw [ih ((l :: ls').drop chunkSize) (base + chunkSize) hlen]
      have hn : ((l :: ls').length + (chunkSize - 1)) / chunkSize
          = (((l :: ls').drop chunkSize).length + (chunkSize - 1)) / chunkSize + 1 := by
        simp only [List.length_drop, List.length_cons, chunkSize]
        omega
      rw [hn, List.range_succ_eq_map, List.map_cons, List.map_map]
      congr 1
      refine List.map_congr_left (fun a _ => ?_)
      simp only [Function.comp_apply, Nat.succ_eq_add_one, List.drop_drop]
      have h1 : base + chunkSize + a * chunkSize = base + (a + 1) * chunkSize := by
        simp only [chunkSize]
        omega
      have h2 : a * chunkSize + chunkSize = (a + 1) * chunkSize := by
        simp only [chunkSize]
        omega
      have h3 : chunkSize + a * chunkSize = (a + 1) * chunkSize := by
        simp only [chunkSize]
        omega
      rw [h1]
      first
      | rw [h2]
      | rw [h3]

/-- C4: for every retry prompt and document, with `L` the number of lines
`strings.Split` yields on the stripped document and `K = chunkSize = 30`,
the chunker produces exactly `⌈L / K⌉` chunks; chunk `i` (0-based) covers
the slice of `min (K, L - i * K)` lines starting at line index `i * K`, and
renders it as the concatenation of `Line (i * K + k + 1): <content>\n` —
the original 1-based numbers `i * K + 1` through `min ((i + 1) * K, L)`.
This covers the empty document and documents ending in a newline, whose
final split segment is the empty line. -/
theorem chunker_deterministic (retryPrompt document : String) :
    (preprocessDocument2 retryPrompt document).length =
      ((goSplitLines (dropPfx retryPrompt.data document.data)).length
        + (chunkSize - 1)) / chunkSize
    ∧ (∀ i : Nat,
        (((goSplitLines (dropPfx retryPrompt.data document.data)).drop
          (i * chunkSize)).take chunkSize).length =
        min chunkSize
          ((goSplitLines (dropPfx retryPrompt.data document.data)).length
            - i * chunkSize))
    ∧ ∀ i : Nat, i < (preprocessDocument2 retryPrompt document).length →
        (preprocessDocument2 retryPrompt document).getD i "" =
          ((List.range (((goSplitLines
              (dropPfx retryPrompt.data document.data)).drop
              (i * chunkSize)).take chunkSize).length).map (fun k =>
            "Line " ++ toString (i * chunkSize + k + 1) ++ ": "
              ++ (((goSplitLines (dropPfx retryPrompt.data document.data)).drop
                (i * chunkSize)).take chunkSize).getD k "" ++ "\n")).foldr
            (· ++ ·) "" := by
  have hb := buildChunksF_eq
    (goSplitLines (dropPfx retryPrompt.data document.data)).length
    (goSplitLines (dropPfx retryPrompt.data document.data)) 0 (Nat.le_refl _)
  refine ⟨?_, ?_, ?_⟩
  · rw [show preprocessDocument2 retryPrompt document =
      buildChunksF (goSplitLines (dropPfx retryPrompt.data document.data)).length
        0 (goSplitLines (dropPfx retryPrompt.data document.data)) from rfl, hb]
    simp
  · intro i
    simp [List.length_take, List.length_drop]
  · intro i hi
    rw [show preprocessDocument2 retryPrompt document =
      buildChunksF (goSplitLines (dropPfx retryPrompt.data document.data)).length
        0 (goSplitLines (dropPfx retryPrompt.data document.data)) from rfl, hb] at hi ⊢
    rw [List.length_map, List.length_range] at hi
    rw [List.getD_eq_getElem?_getD, List.getElem?_map, List.getElem?_range hi]
    simp only [Option.map_some', Option.getD_some]
    rw [renderChunk_eq]
    simp

/-- C4 witness: the two-line document `"a\nb"` with an empty retry prompt
yields one chunk embedding lines 1 and 2. -/
theorem chunker_deterministic_holds :
    (preprocessDocument2 "" "a\nb").length = 1
    ∧ (preprocessDocument2 "" "a\nb").getD 0 "" = "Line 1: a\nLine 2: b\n" := by
  have h := chunker_deterministic "" "a\nb"
  constructor
  · rw [h.1]
    rfl
  · rw [h.2.2 0 (by decide)]
    rfl
